import Mathlib

/-!
Verification of `scripts/update_contributors.py`: the script loads a JSON
list of contributor records, filters known bot accounts, renders an HTML
table fragment, and splices the fragment between two marker comments in
`README.md` (or appends a fresh marker block when the pair is absent).

Strings are embedded as `List Char`. Python's `s.split(sep, 1)` is
`splitFirst` (returning `none` when `sep` does not occur, the situation in
which Python's two-variable unpacking raises), `sep in s` is `containsSub`,
`str.strip()` / `str.rstrip()` are `pyStrip` / `pyRStrip`, and `"\n".join`
is `joinNL`.
-/

namespace UpdateContributors

abbrev Str := List Char

/-- Whitespace as Python's `str.strip`/`str.rstrip` remove at the ends:
exactly the characters for which `str.isspace()` is true — the ASCII
whitespace U+0009–U+000D and U+0020, the information separators
U+001C–U+001F, NEL U+0085, NBSP U+00A0, and the Unicode space, line and
paragraph separators U+1680, U+2000–U+200A, U+2028, U+2029, U+202F,
U+205F and U+3000. -/
def isPySpace (c : Char) : Bool :=
  c = '\t' || c = '\n' || c = '\x0b' || c = '\x0c' || c = '\r'
    || c = '\x1c' || c = '\x1d' || c = '\x1e' || c = '\x1f' || c = ' '
    || c = '\x85' || c = '\xa0' || c = '\u1680'
    || c = '\u2000' || c = '\u2001' || c = '\u2002' || c = '\u2003'
    || c = '\u2004' || c = '\u2005' || c = '\u2006' || c = '\u2007'
    || c = '\u2008' || c = '\u2009' || c = '\u200A'
    || c = '\u2028' || c = '\u2029' || c = '\u202F' || c = '\u205F'
    || c = '\u3000'

/-- Python `s.rstrip()`. -/
def pyRStrip (s : Str) : Str :=
  (s.reverse.dropWhile isPySpace).reverse

/-- Python `s.strip()`. -/
def pyStrip (s : Str) : Str :=
  ((s.dropWhile isPySpace).reverse.dropWhile isPySpace).reverse

/-- Python `s.split(sep, 1)` for a non-empty separator: `some (before,
after)` splits at the first occurrence of `sep`; `none` when `sep` does not
occur (where Python returns the one-element list `[s]`, so that unpacking
into two variables raises `ValueError`). -/
def splitFirst (sep : Str) : Str → Option (Str × Str)
  | [] => if sep.isPrefixOf ([] : Str) then some ([], []) else none
  | c :: rest =>
    if sep.isPrefixOf (c :: rest) then some ([], (c :: rest).drop sep.length)
    else
      match splitFirst sep rest with
      | some (b, a) => some (c :: b, a)
      | none => none

/-- Python `sep in s`. -/
def containsSub (sep s : Str) : Bool :=
  (splitFirst sep s).isSome

/-- Python `"\n".join`. -/
def joinNL : List Str → Str
  | [] => []
  | [l] => l
  | l :: l2 :: ls => l ++ '\n' :: joinNL (l2 :: ls)

/-- One record of `contributors.json` (the three fields the script reads). -/
structure Contributor where
  login : Str
  avatar_url : Str
  html_url : Str
deriving DecidableEq

def start_marker : Str := "<!-- CONTRIBUTORS START -->".data

def end_marker : Str := "<!-- CONTRIBUTORS END -->".data

def bots_to_exclude : List Str :=
  ["actions-user".data, "github-actions[bot]".data, "GitHub Action".data]

/-- Python string interpolation of an optional environment value: `None`
renders as the literal `None` (the `GITHUB_REPOSITORY`-absent case). -/
def repoText : Option Str → Str
  | none => "None".data
  | some r => r

/-- The table row rendered for one (non-excluded) contributor. -/
def row (repo_name : Option Str) (c : Contributor) : Str :=
  "    <tr><td><img src=\"".data ++ c.avatar_url
    ++ "?s=50\" alt=\"Avatar\" width=\"50\" height=\"50\"></td><td><a href=\"".data
    ++ c.html_url ++ "\">".data ++ c.login
    ++ "</a></td><td><a href=\"https://github.com/".data ++ repoText repo_name
    ++ "/graphs/contributors\">📈</a></td></tr>".data

/-- The fixed lines pushed onto `html_lines` before the loop. -/
def header_lines : List Str :=
  ["<h2>Contributors</h2>".data,
   "<table border='1' cellspacing='0' cellpadding='5'>".data,
   "  <thead>".data,
   "    <tr><th>Avatar</th><th>Username</th><th>Insights</th></tr>".data,
   "  </thead>".data,
   "  <tbody>".data]

/-- The fixed lines appended after the loop. -/
def footer_lines : List Str :=
  ["  </tbody>".data, "</table>".data]

/-- The `for contributor in contributors` loop: one row per record, in
order, skipping (`continue`) the logins in `bots_to_exclude`. -/
def buildRows (repo_name : Option Str) : List Contributor → List Str
  | [] => []
  | c :: rest =>
    if bots_to_exclude.contains c.login then buildRows repo_name rest
    else row repo_name c :: buildRows repo_name rest

def html_lines (repo_name : Option Str) (cs : List Contributor) : List Str :=
  header_lines ++ buildRows repo_name cs ++ footer_lines

/-- `new_section = "\n".join(html_lines)`. -/
def new_section (repo_name : Option Str) (cs : List Contributor) : Str :=
  joinNL (html_lines repo_name cs)

/-- Python truthiness of `os.getenv` results: `None` and `""` are falsy. -/
def pyTruthy : Option Str → Bool
  | none => false
  | some s => !s.isEmpty

def optVal : Option Str → Str
  | none => []
  | some s => s

/-- The early-exit needle `f'">{pr_author}</a>'`. -/
def authorNeedle (a : Str) : Str :=
  "\">".data ++ a ++ "</a>".data

/-- How one invocation of `main` ends, once `contributors.json` and the
README text are in hand. `skippedAuthor` is the early `return`,
`noChange` the explicit `sys.exit(0)`, `wrote c` the write of the merged
text `c`, and `unexpectedError` the `ValueError` raised when unpacking
the end-marker split fails (only one value to unpack). -/
inductive MainResult where
  | skippedAuthor : MainResult
  | noChange : MainResult
  | wrote : Str → MainResult
  | unexpectedError : MainResult
deriving DecidableEq

/-- The merge after the early-exit check: the two-branch conditional on the
marker pair, the trimmed comparison, and the two reassembly f-strings. -/
def mergeStep (repo_name : Option Str) (contributors : List Contributor)
    (content : Str) : MainResult :=
  let new_sec := new_section repo_name contributors
  if containsSub start_marker content && containsSub end_marker content then
    match splitFirst start_marker content with
    | none => MainResult.unexpectedError
    | some (before, withMarkers) =>
      match splitFirst end_marker withMarkers with
      | none => MainResult.unexpectedError
      | some (current_section, after) =>
        if pyStrip new_sec = pyStrip current_section then MainResult.noChange
        else
          MainResult.wrote (before ++ start_marker ++ ['\n'] ++ new_sec
            ++ ['\n'] ++ end_marker ++ after)
  else
    MainResult.wrote (pyRStrip content ++ ['\n', '\n'] ++ start_marker
      ++ ['\n'] ++ new_sec ++ ['\n'] ++ end_marker ++ ['\n'])

/-- The body of `main` after both input files were read: the `PR_AUTHOR`
early exit, then the merge. -/
def main (pr_author repo_name : Option Str) (contributors : List Contributor)
    (content : Str) : MainResult :=
  if pyTruthy pr_author && containsSub (authorNeedle (optVal pr_author)) content then
    MainResult.skippedAuthor
  else
    mergeStep repo_name contributors content

/-- How reading `contributors.json` (and the README) went: `ok` carries the
parsed list; the other constructors are the exceptions the `try` block can
raise while loading. -/
inductive LoadResult where
  | ok : List Contributor → LoadResult
  | jsonError : LoadResult
  | fileNotFound : LoadResult
  | ioFailure : LoadResult
deriving DecidableEq

/-- The four `except` clauses at the bottom of `main`. -/
inductive ErrKind where
  | jsonParse : ErrKind
  | fileNotFound : ErrKind
  | ioFailure : ErrKind
  | unexpected : ErrKind
deriving DecidableEq

/-- The kind-specific message printed to stderr by each `except` clause
(before the interpolated exception text). -/
def errMsg : ErrKind → Str
  | ErrKind.jsonParse => "Error parsing contributors.json: ".data
  | ErrKind.fileNotFound => "File not found: ".data
  | ErrKind.ioFailure => "I/O error: ".data
  | ErrKind.unexpected => "Unexpected error updating README.md: ".data

/-- Process outcome: `success w` is exit code 0 with `w` the optional README
write; `failure k` is exit code 1 via the `except` clause for `k`, with no
write. -/
inductive ProgOutcome where
  | success : Option Str → ProgOutcome
  | failure : ErrKind → ProgOutcome
deriving DecidableEq

/-- The whole script: exceptions while loading map to their `except`
clauses; otherwise `main`'s body runs, and its `ValueError` lands in the
catch-all `except Exception`. -/
def program (load : LoadResult) (pr_author repo_name : Option Str)
    (content : Str) : ProgOutcome :=
  match load with
  | LoadResult.jsonError => ProgOutcome.failure ErrKind.jsonParse
  | LoadResult.fileNotFound => ProgOutcome.failure ErrKind.fileNotFound
  | LoadResult.ioFailure => ProgOutcome.failure ErrKind.ioFailure
  | LoadResult.ok contributors =>
    match main pr_author repo_name contributors content with
    | MainResult.skippedAuthor => ProgOutcome.success none
    | MainResult.noChange => ProgOutcome.success none
    | MainResult.wrote c => ProgOutcome.success (some c)
    | MainResult.unexpectedError => ProgOutcome.failure ErrKind.unexpected

def progExit : ProgOutcome → Nat
  | ProgOutcome.success _ => 0
  | ProgOutcome.failure _ => 1

def progWrite : ProgOutcome → Option Str
  | ProgOutcome.success w => w
  | ProgOutcome.failure _ => none

end UpdateContributors
namespace UpdateContributors

lemma isPrefixOf_iff (x y : Str) : x.isPrefixOf y = true ↔ ∃ t, y = x ++ t := by
  induction x generalizing y with
  | nil => simp [List.isPrefixOf]
  | cons a as ih =>
    cases y with
    | nil => simp [List.isPrefixOf]
    | cons b bs =>
      simp only [List.isPrefixOf, Bool.and_eq_true, beq_iff_eq, ih, List.cons_append,
        List.cons.injEq]
      constructor
      · rintro ⟨rfl, t, rfl⟩; exact ⟨t, rfl, rfl⟩
      · rintro ⟨t, rfl, rfl⟩; exact ⟨rfl, t, rfl⟩

lemma splitFirst_eq (sep : Str) : ∀ s b a, splitFirst sep s = some (b, a) → s = b ++ sep ++ a := by
  intro s
  induction s with
  | nil =>
    intro b a h
    by_cases hp : sep.isPrefixOf ([] : Str) = true
    · obtain ⟨t, ht⟩ := (isPrefixOf_iff _ _).mp hp
      have hsep : sep = [] := by
        cases sep with
        | nil => rfl
        | cons c cs => simp at ht
      simp [splitFirst, hp] at h
      simp [h.1, h.2, hsep]
    · simp [splitFirst, hp] at h
  | cons c rest ih =>
    intro b a h
    by_cases hp : sep.isPrefixOf (c :: rest) = true
    · obtain ⟨t, ht⟩ := (isPrefixOf_iff _ _).mp hp
      simp only [splitFirst, hp, if_true] at h
      obtain ⟨hb, ha⟩ := Option.some.inj h |> Prod.mk.inj
      subst hb
      rw [ht] at ha ⊢
      rw [List.drop_left] at ha
      simp [← ha]
    · simp only [splitFirst, hp] at h
      cases hrec : splitFirst sep rest with
      | none => rw [hrec] at h; simp at h
      | some p =>
        obtain ⟨b', a'⟩ := p
        rw [hrec] at h
        simp only [if_neg hp] at h
        obtain ⟨hb, ha⟩ := Option.some.inj h |> Prod.mk.inj
        have := ih b' a' hrec
        subst ha
        rw [← hb, this]
        simp

end UpdateContributors
namespace UpdateContributors

lemma splitFirst_cons_pos {sep : Str} {c : Char} {rest : Str}
    (hp : sep.isPrefixOf (c :: rest) = true) :
    splitFirst sep (c :: rest) = some ([], (c :: rest).drop sep.length) := by
  rw [splitFirst, if_pos hp]

lemma splitFirst_cons_neg {sep : Str} {c : Char} {rest : Str}
    (hp : ¬ sep.isPrefixOf (c :: rest) = true) :
    splitFirst sep (c :: rest) =
      (match splitFirst sep rest with
       | some (b, a) => some (c :: b, a)
       | none => none) := by
  rw [splitFirst, if_neg hp]

lemma containsSub_iff (sep s : Str) : containsSub sep s = true ↔ ∃ x y, s = x ++ sep ++ y := by
  constructor
  · intro h
    rw [containsSub, Option.isSome_iff_exists] at h
    obtain ⟨⟨b, a⟩, hba⟩ := h
    exact ⟨b, a, splitFirst_eq sep s b a hba⟩
  · rintro ⟨x, y, rfl⟩
    induction x with
    | nil =>
      have hp : sep.isPrefixOf (sep ++ y) = true := (isPrefixOf_iff _ _).mpr ⟨y, rfl⟩
      cases hsy : (sep ++ y : Str) with
      | nil =>
        have hsep : sep = [] := by
          cases sep with
          | nil => rfl
          | cons c cs => simp at hsy
        have hy : y = [] := by simpa [hsep] using hsy
        simp [containsSub, splitFirst, hsep, hy, List.isPrefixOf]
      | cons c rest =>
        rw [List.nil_append, containsSub, hsy, splitFirst_cons_pos (hsy ▸ hp)]
        rfl
    | cons c x' ih =>
      rw [containsSub, List.cons_append, List.cons_append]
      by_cases hp : sep.isPrefixOf (c :: (x' ++ sep ++ y)) = true
      · rw [splitFirst_cons_pos hp]
        rfl
      · rw [splitFirst_cons_neg hp]
        rw [containsSub, Option.isSome_iff_exists] at ih
        obtain ⟨⟨b, a⟩, hba⟩ := ih
        rw [hba]
        rfl

lemma containsSub_parts (sep x y : Str) : containsSub sep (x ++ sep ++ y) = true :=
  (containsSub_iff sep _).mpr ⟨x, y, rfl⟩

lemma isPrefixOf_tail_irrel (x : Str) : ∀ (y t1 t2 : Str), x.length ≤ y.length →
    x.isPrefixOf (y ++ t1) = x.isPrefixOf (y ++ t2) := by
  induction x with
  | nil => intro y t1 t2 _; simp [List.isPrefixOf]
  | cons a as ih =>
    intro y t1 t2 hlen
    cases y with
    | nil => simp at hlen
    | cons b bs =>
      simp only [List.cons_append, List.isPrefixOf, List.append_eq]
      rw [ih bs t1 t2 (by simpa using hlen)]

lemma splitFirst_stable (sep : Str) : ∀ (b t1 t2 : Str),
    splitFirst sep (b ++ sep ++ t1) = some (b, t1) →
    splitFirst sep (b ++ sep ++ t2) = some (b, t2) := by
  intro b
  induction b with
  | nil =>
    intro t1 t2 _
    have hp : sep.isPrefixOf (sep ++ t2) = true := (isPrefixOf_iff _ _).mpr ⟨t2, rfl⟩
    cases hsy : (sep ++ t2 : Str) with
    | nil =>
      have hsep : sep = [] := by
        cases sep with
        | nil => rfl
        | cons c cs => simp at hsy
      have ht2 : t2 = [] := by simpa [hsep] using hsy
      simp [hsep, ht2, splitFirst, List.isPrefixOf]
    | cons c rest =>
      rw [List.nil_append, hsy, splitFirst_cons_pos (hsy ▸ hp), ← hsy, List.drop_left]
  | cons c b' ih =>
    intro t1 t2 h1
    rw [List.cons_append, List.cons_append] at h1 ⊢
    by_cases hp1 : sep.isPrefixOf (c :: (b' ++ sep ++ t1)) = true
    · rw [splitFirst_cons_pos hp1] at h1
      simp at h1
    · rw [splitFirst_cons_neg hp1] at h1
      have hp2 : ¬ sep.isPrefixOf (c :: (b' ++ sep ++ t2)) = true := by
        have heq := isPrefixOf_tail_irrel sep ((c :: b') ++ sep) t1 t2
          (by simp only [List.length_append, List.length_cons]; omega)
        simp only [List.cons_append] at heq
        rw [heq] at hp1
        exact hp1
      rw [splitFirst_cons_neg hp2]
      cases hrec : splitFirst sep (b' ++ sep ++ t1) with
      | none =>
        rw [hrec] at h1
        simp at h1
      | some p =>
        obtain ⟨x, y⟩ := p
        rw [hrec] at h1
        simp only [Option.some.injEq, Prod.mk.injEq, List.cons.injEq] at h1
        obtain ⟨⟨-, hxb⟩, hyt⟩ := h1
        subst hxb
        rw [hyt] at hrec
        rw [ih t1 t2 hrec]

end UpdateContributors
namespace UpdateContributors

lemma containsSub_cons (sep u : Str) (c : Char) (hc : containsSub sep u = true) :
    containsSub sep (c :: u) = true := by
  obtain ⟨x, y, rfl⟩ := (containsSub_iff sep u).mp hc
  exact (containsSub_iff sep _).mpr ⟨c :: x, y, by simp⟩

/-- No nontrivial border: no proper non-empty prefix of `sep` is also a
suffix of `sep`. Both marker literals satisfy this (checked by `decide`
below); it rules out occurrences of a marker straddling the boundary where
the literal marker is concatenated onto other text. -/
def NoBorder (sep : Str) : Prop :=
  ∀ k, k < sep.length → 0 < k → sep.take k ≠ sep.drop (sep.length - k)

lemma splitFirst_clean (sep : Str) (hb : NoBorder sep) (hsep : sep ≠ []) :
    ∀ u, containsSub sep u = false → splitFirst sep (u ++ sep) = some (u, []) := by
  intro u
  induction u with
  | nil =>
    intro _
    rw [List.nil_append]
    cases hs : sep with
    | nil => exact absurd hs hsep
    | cons d sep' =>
      have hp : sep.isPrefixOf sep = true := (isPrefixOf_iff _ _).mpr ⟨[], by simp⟩
      rw [hs] at hp
      rw [splitFirst_cons_pos hp]
      simp [List.drop_length]
  | cons c u' ih =>
    intro hu
    have hu' : containsSub sep u' = false := by
      by_contra hne
      rw [Bool.not_eq_false] at hne
      rw [containsSub_cons sep u' c hne] at hu
      exact absurd hu (by simp)
    rw [List.cons_append]
    have hp : ¬ sep.isPrefixOf (c :: (u' ++ sep)) = true := by
      intro hp
      obtain ⟨t, ht⟩ := (isPrefixOf_iff _ _).mp hp
      rw [← List.cons_append] at ht
      by_cases hlen : sep.length ≤ (c :: u').length
      · have hsp : sep = (c :: u').take sep.length := by
          have h1 : ((c :: u') ++ sep).take sep.length = (sep ++ t).take sep.length := by
            rw [ht]
          rw [List.take_append_of_le_length hlen, List.take_left] at h1
          exact h1.symm
        have hdec : (c :: u') = sep ++ (c :: u').drop sep.length := by
          conv_lhs => rw [← List.take_append_drop sep.length (c :: u')]
          rw [← hsp]
        have hcon : containsSub sep (c :: u') = true :=
          (containsSub_iff sep _).mpr ⟨[], (c :: u').drop sep.length, by simpa using hdec⟩
        rw [hcon] at hu
        exact absurd hu (by simp)
      · push_neg at hlen
        have hm_pos : 0 < (c :: u').length := by simp
        have hk_pos : 0 < sep.length - (c :: u').length := by omega
        have hk_lt : sep.length - (c :: u').length < sep.length := by omega
        have hsum : (c :: u').length + (sep.length - (c :: u').length) = sep.length := by
          omega
        have e1 : ((c :: u') ++ sep).take ((c :: u').length + (sep.length - (c :: u').length))
            = (c :: u') ++ sep.take (sep.length - (c :: u').length) :=
          List.take_append (sep.length - (c :: u').length)
        have e2 : ((c :: u') ++ sep).take ((c :: u').length + (sep.length - (c :: u').length))
            = sep := by
          rw [ht, hsum, List.take_left]
        have hsp : sep = (c :: u') ++ sep.take (sep.length - (c :: u').length) := by
          rw [← e1, e2]
        have hdrop : sep.drop (c :: u').length = sep.take (sep.length - (c :: u').length) := by
          conv_lhs => rw [hsp]
          rw [List.drop_left]
        have hmk : (c :: u').length = sep.length - (sep.length - (c :: u').length) := by
          omega
        have heq : sep.take (sep.length - (c :: u').length)
            = sep.drop (sep.length - (sep.length - (c :: u').length)) := by
          rw [← hmk, hdrop]
        exact hb (sep.length - (c :: u').length) hk_lt hk_pos heq
    rw [splitFirst_cons_neg hp, ih hu']

lemma splitFirst_embed (sep : Str) (hb : NoBorder sep) (hsep : sep ≠ [])
    (u t : Str) (hu : containsSub sep u = false) :
    splitFirst sep (u ++ sep ++ t) = some (u, t) := by
  have h0 := splitFirst_clean sep hb hsep u hu
  exact splitFirst_stable sep u [] t (by simpa using h0)

end UpdateContributors
namespace UpdateContributors

lemma dropWhile_append_cons (p : Char → Bool) (c : Char) (hc : p c = false) :
    ∀ (a r : Str), List.dropWhile p (a ++ c :: r) = List.dropWhile p a ++ c :: r := by
  intro a
  induction a with
  | nil => intro r; simp [List.dropWhile, hc]
  | cons d a' ih =>
    intro r
    by_cases hd : p d = true
    · simp [List.dropWhile, hd, ih r]
    · simp only [Bool.not_eq_true] at hd
      simp [List.dropWhile, hd]

lemma pyRStrip_decomp (s : Str) :
    s = pyRStrip s ++ (s.reverse.takeWhile isPySpace).reverse ∧
      ∀ c ∈ (s.reverse.takeWhile isPySpace).reverse, isPySpace c = true := by
  constructor
  · conv_lhs => rw [← List.reverse_reverse s,
      ← List.takeWhile_append_dropWhile isPySpace s.reverse]
    rw [List.reverse_append]
    rfl
  · intro c hc
    rw [List.mem_reverse] at hc
    exact List.mem_takeWhile_imp hc

lemma pyRStrip_append (x g y : Str) (c : Char) (hc : isPySpace c = false) :
    pyRStrip (x ++ (g ++ [c]) ++ y) = x ++ (g ++ [c]) ++ pyRStrip y := by
  have h1 : (x ++ (g ++ [c]) ++ y).reverse = y.reverse ++ c :: (g.reverse ++ x.reverse) := by
    simp [List.reverse_append]
  rw [pyRStrip, h1, dropWhile_append_cons isPySpace c hc]
  rw [List.reverse_append, List.reverse_cons, List.reverse_append]
  simp [pyRStrip, List.append_assoc]

lemma containsSub_pyRStrip (sep content : Str) (g : Str) (c : Char)
    (hg : sep = g ++ [c]) (hc : isPySpace c = false)
    (hcon : containsSub sep content = true) :
    containsSub sep (pyRStrip content) = true := by
  obtain ⟨x, y, rfl⟩ := (containsSub_iff sep content).mp hcon
  rw [hg] at *
  rw [pyRStrip_append x g y c hc]
  exact containsSub_parts _ x (pyRStrip y)

lemma pyStrip_of_ends (s t1 t2 : Str) (c1 c2 : Char)
    (hs1 : s = c1 :: t1) (hs2 : s = t2 ++ [c2])
    (h1 : isPySpace c1 = false) (h2 : isPySpace c2 = false) :
    pyStrip s = s ∧ pyStrip ('\n' :: s ++ ['\n']) = s := by
  have hdrop : List.dropWhile isPySpace s = s := by
    rw [hs1]; simp [List.dropWhile, h1]
  have hrev : List.dropWhile isPySpace s.reverse = s.reverse := by
    rw [hs2, List.reverse_append]
    simp [List.dropWhile, h2]
  constructor
  · rw [pyStrip, hdrop, hrev, List.reverse_reverse]
  · have hnl : isPySpace '\n' = true := by decide
    have e1 : List.dropWhile isPySpace ('\n' :: s ++ ['\n']) = s ++ ['\n'] := by
      rw [List.cons_append]
      simp only [List.dropWhile, hnl]
      rw [hs1, List.cons_append]
      simp [List.dropWhile, h1]
    rw [pyStrip, e1, List.reverse_append]
    simp only [List.reverse_cons, List.reverse_nil, List.nil_append, List.singleton_append,
      List.dropWhile, hnl, List.append_eq]
    rw [hrev, List.reverse_reverse]

lemma joinNL_first (x : Str) (ls : List Str) : ∃ q, joinNL (x :: ls) = x ++ q := by
  cases ls with
  | nil => exact ⟨[], by simp [joinNL]⟩
  | cons l2 ls' => exact ⟨'\n' :: joinNL (l2 :: ls'), rfl⟩

lemma joinNL_last (xs : List Str) (y : Str) : ∃ p, joinNL (xs ++ [y]) = p ++ y := by
  induction xs with
  | nil => exact ⟨[], by simp [joinNL]⟩
  | cons x xs' ih =>
    cases xs' with
    | nil => exact ⟨x ++ ['\n'], by simp [joinNL]⟩
    | cons z zs =>
      obtain ⟨p', hp'⟩ := ih
      rw [List.cons_append] at hp'
      refine ⟨x ++ '\n' :: p', ?_⟩
      calc joinNL ((x :: z :: zs) ++ [y])
          = x ++ '\n' :: joinNL (z :: (zs ++ [y])) := by rfl
        _ = x ++ '\n' :: (p' ++ y) := by rw [hp']
        _ = (x ++ '\n' :: p') ++ y := by simp

lemma new_section_shape (repo_name : Option Str) (cs : List Contributor) :
    (∃ q, new_section repo_name cs = '<' :: q) ∧
      ∃ p, new_section repo_name cs = p ++ ['>'] := by
  constructor
  · have h0 : header_lines = "<h2>Contributors</h2>".data :: header_lines.tail := by rfl
    rw [new_section, html_lines, h0, List.cons_append, List.cons_append]
    obtain ⟨q, hq⟩ := joinNL_first _ _
    exact ⟨"h2>Contributors</h2>".data ++ q, by rw [hq]; rfl⟩
  · have h0 : header_lines ++ buildRows repo_name cs ++ footer_lines
        = (header_lines ++ buildRows repo_name cs ++ ["  </tbody>".data]) ++ ["</table>".data] := by
      simp [footer_lines]
    rw [new_section, html_lines, h0]
    obtain ⟨p, hp⟩ := joinNL_last _ _
    refine ⟨p ++ "</table".data, ?_⟩
    rw [hp]
    have : "</table>".data = "</table".data ++ ['>'] := by decide
    rw [this, List.append_assoc]

lemma pyStrip_new_section (repo_name : Option Str) (cs : List Contributor) :
    pyStrip (new_section repo_name cs) = new_section repo_name cs ∧
      pyStrip ('\n' :: new_section repo_name cs ++ ['\n']) = new_section repo_name cs := by
  obtain ⟨⟨q, hq⟩, p, hp⟩ := new_section_shape repo_name cs
  exact pyStrip_of_ends _ q p '<' '>' hq hp (by decide) (by decide)

end UpdateContributors
namespace UpdateContributors

lemma ne_of_last (x g u : Str) (a b : Char) (hab : a ≠ b) :
    x ++ (g ++ [a]) ≠ u ++ [b] := by
  intro h
  have hrev := congrArg List.reverse h
  simp only [List.reverse_append, List.reverse_cons, List.reverse_nil, List.nil_append,
    List.singleton_append, List.cons_append, List.cons.injEq] at hrev
  exact hab hrev.1

lemma sm_gt : start_marker = "<!-- CONTRIBUTORS START --".data ++ ['>'] := by decide

lemma em_gt : end_marker = "<!-- CONTRIBUTORS END --".data ++ ['>'] := by decide

lemma em_lt : end_marker = '<' :: "!-- CONTRIBUTORS END -->".data := by decide

lemma sm_ne_nil : start_marker ≠ [] := by decide

lemma em_ne_nil : end_marker ≠ [] := by decide

lemma sm_noBorder : NoBorder start_marker := by unfold NoBorder; decide

lemma em_noBorder : NoBorder end_marker := by unfold NoBorder; decide

/-- A marker that does not occur in `content` does not occur in
`content.rstrip() + "\n\n"` either (the append path's left part): the
marker ends in `>` so it cannot end inside the two newlines. -/
lemma containsSub_rstrip_nn (sep content g : Str) (hg : sep = g ++ ['>'])
    (hcon : containsSub sep content = false) :
    containsSub sep (pyRStrip content ++ ['\n', '\n']) = false := by
  by_contra hne
  rw [Bool.not_eq_false, containsSub_iff] at hne
  obtain ⟨x, y, hxy⟩ := hne
  obtain ⟨hdec, -⟩ := pyRStrip_decomp content
  have hsplit := (List.append_eq_append_iff
    (a := x ++ sep) (b := y) (c := pyRStrip content) (d := ['\n', '\n'])).mp hxy.symm
  rcases hsplit with ⟨a', ha1, ha2⟩ | ⟨c', hc1, hc2⟩
  · have : containsSub sep content = true := by
      rw [containsSub_iff]
      refine ⟨x, a' ++ (content.reverse.takeWhile isPySpace).reverse, ?_⟩
      conv_lhs => rw [hdec, ha1]
      simp [List.append_assoc]
    rw [this] at hcon
    exact absurd hcon (by simp)
  · match c', hc2 with
    | [], _ =>
      have hc1' : x ++ sep = pyRStrip content := by simpa using hc1
      have : containsSub sep content = true := by
        rw [containsSub_iff]
        refine ⟨x, (content.reverse.takeWhile isPySpace).reverse, ?_⟩
        conv_lhs => rw [hdec, ← hc1']
      rw [this] at hcon
      exact absurd hcon (by simp)
    | [e], he =>
      have he' : e = '\n' := by
        have := (List.cons.injEq '\n' ['\n'] e y).mp (by simpa using he)
        exact this.1.symm
      rw [he'] at hc1
      exact ne_of_last x g (pyRStrip content) '>' '\n' (by decide) (by rw [← hg]; exact hc1)
    | e :: f :: rest, he =>
      have hee : ('\n' : Char) :: '\n' :: [] = e :: f :: (rest ++ y) := by simpa using he
      have h1 := (List.cons.injEq '\n' ['\n'] e (f :: (rest ++ y))).mp hee
      have h2 := (List.cons.injEq '\n' [] f (rest ++ y)).mp h1.2
      have hrest : rest = [] := by
        cases rest with
        | nil => rfl
        | cons r rs => simp at h2
      rw [hrest, h1.1.symm, h2.1.symm] at hc1
      have hc1' : x ++ sep = (pyRStrip content ++ ['\n']) ++ ['\n'] := by
        rw [hc1]; simp
      exact ne_of_last x g (pyRStrip content ++ ['\n']) '>' '\n' (by decide)
        (by rw [← hg]; exact hc1')

/-- A marker that does not occur in the fragment does not occur in
`"\n" + fragment + "\n"` either: the marker starts with `<` and ends with
`>`, so it can neither start nor end on the added newlines. -/
lemma containsSub_wrap_nl (sep ns g1 g2 : Str) (h1 : sep = '<' :: g1)
    (h2 : sep = g2 ++ ['>']) (hns : containsSub sep ns = false) :
    containsSub sep ('\n' :: ns ++ ['\n']) = false := by
  by_contra hne
  rw [Bool.not_eq_false, containsSub_iff] at hne
  obtain ⟨x, y, hxy⟩ := hne
  cases x with
  | nil =>
    rw [List.nil_append] at hxy
    rw [h1] at hxy
    have := (List.cons.injEq '\n' (ns ++ ['\n']) '<' (g1 ++ y)).mp (by simpa using hxy)
    exact absurd this.1 (by decide)
  | cons c x' =>
    have hx' : ns ++ ['\n'] = x' ++ sep ++ y := by
      have := (List.cons.injEq '\n' (ns ++ ['\n']) c (x' ++ sep ++ y)).mp
        (by simpa using hxy)
      exact this.2
    have hsplit := (List.append_eq_append_iff
      (a := x' ++ sep) (b := y) (c := ns) (d := ['\n'])).mp hx'.symm
    rcases hsplit with ⟨a', ha1, ha2⟩ | ⟨c', hc1, hc2⟩
    · have : containsSub sep ns = true := by
        rw [containsSub_iff]
        exact ⟨x', a', ha1⟩
      rw [this] at hns
      exact absurd hns (by simp)
    · match c', hc2 with
      | [], _ =>
        have hc1' : x' ++ sep = ns := by simpa using hc1
        have : containsSub sep ns = true := by
          rw [containsSub_iff]
          refine ⟨x', [], ?_⟩
          rw [List.append_nil]
          exact hc1'.symm
        rw [this] at hns
        exact absurd hns (by simp)
      | [e], he =>
        have he' : e = '\n' := by
          have := (List.cons.injEq '\n' [] e y).mp (by simpa using he)
          exact this.1.symm
        rw [he'] at hc1
        exact ne_of_last x' g2 ns '>' '\n' (by decide) (by rw [← h2]; exact hc1)
      | e :: f :: rest, he =>
        have hee : ('\n' : Char) :: [] = e :: f :: (rest ++ y) := by simpa using he
        have h1' := (List.cons.injEq '\n' [] e (f :: (rest ++ y))).mp hee
        simp at h1'

end UpdateContributors
namespace UpdateContributors

lemma main_none (repo_name : Option Str) (cs : List Contributor) (content : Str) :
    main none repo_name cs content = mergeStep repo_name cs content := by
  simp [main, pyTruthy]

lemma containsSub_of_splitFirst {sep s : Str} {b a : Str}
    (h : splitFirst sep s = some (b, a)) : containsSub sep s = true := by
  rw [containsSub, h]
  rfl

lemma splitFirst_eq_none_of_not_contains {sep s : Str}
    (h : containsSub sep s = false) : splitFirst sep s = none := by
  cases hsp : splitFirst sep s with
  | none => rfl
  | some p =>
    rw [containsSub, hsp] at h
    simp at h

lemma merge_replace (repo_name : Option Str) (cs : List Contributor)
    (content b restA mid after : Str)
    (h1 : splitFirst start_marker content = some (b, restA))
    (h2 : splitFirst end_marker restA = some (mid, after))
    (hne : pyStrip (new_section repo_name cs) ≠ pyStrip mid) :
    main none repo_name cs content = MainResult.wrote
      (b ++ start_marker ++ ['\n'] ++ new_section repo_name cs
        ++ ['\n'] ++ end_marker ++ after) := by
  have hs : containsSub start_marker content = true := containsSub_of_splitFirst h1
  have he : containsSub end_marker content = true := by
    rw [containsSub_iff]
    refine ⟨b ++ start_marker ++ mid, after, ?_⟩
    conv_lhs => rw [splitFirst_eq _ _ _ _ h1, splitFirst_eq _ _ _ _ h2]
    simp [List.append_assoc]
  rw [main_none]
  simp only [mergeStep, hs, he, Bool.and_self, if_true]
  split
  · rename_i heq
    rw [h1] at heq
    simp at heq
  · rename_i before withMarkers heq
    rw [h1] at heq
    obtain ⟨hb, hw⟩ := Option.some.inj heq |> Prod.mk.inj
    subst hb; subst hw
    split
    · rename_i heq2
      rw [h2] at heq2
      simp at heq2
    · rename_i mid' after' heq2
      rw [h2] at heq2
      obtain ⟨hm, ha⟩ := Option.some.inj heq2 |> Prod.mk.inj
      subst hm; subst ha
      rw [if_neg hne]

lemma merge_noChange (repo_name : Option Str) (cs : List Contributor)
    (content b restA mid after : Str)
    (h1 : splitFirst start_marker content = some (b, restA))
    (h2 : splitFirst end_marker restA = some (mid, after))
    (heq : pyStrip (new_section repo_name cs) = pyStrip mid) :
    main none repo_name cs content = MainResult.noChange := by
  have hs : containsSub start_marker content = true := containsSub_of_splitFirst h1
  have he : containsSub end_marker content = true := by
    rw [containsSub_iff]
    refine ⟨b ++ start_marker ++ mid, after, ?_⟩
    conv_lhs => rw [splitFirst_eq _ _ _ _ h1, splitFirst_eq _ _ _ _ h2]
    simp [List.append_assoc]
  rw [main_none]
  simp only [mergeStep, hs, he, Bool.and_self, if_true]
  split
  · rename_i hq
    rw [h1] at hq
    simp at hq
  · rename_i before withMarkers hq
    rw [h1] at hq
    obtain ⟨hb, hw⟩ := Option.some.inj hq |> Prod.mk.inj
    subst hb; subst hw
    split
    · rename_i hq2
      rw [h2] at hq2
      simp at hq2
    · rename_i mid' after' hq2
      rw [h2] at hq2
      obtain ⟨hm, ha⟩ := Option.some.inj hq2 |> Prod.mk.inj
      subst hm; subst ha
      rw [if_pos heq]

lemma merge_append (repo_name : Option Str) (cs : List Contributor) (content : Str)
    (hg : (containsSub start_marker content && containsSub end_marker content) = false) :
    main none repo_name cs content = MainResult.wrote
      (pyRStrip content ++ ['\n', '\n'] ++ start_marker ++ ['\n']
        ++ new_section repo_name cs ++ ['\n'] ++ end_marker ++ ['\n']) := by
  have hcond : ¬ ((containsSub start_marker content
      && containsSub end_marker content) = true) := by
    rw [hg]; simp
  rw [main_none]
  simp only [mergeStep]
  rw [if_neg hcond]

lemma merge_unexpected (repo_name : Option Str) (cs : List Contributor)
    (content b restA : Str)
    (h1 : splitFirst start_marker content = some (b, restA))
    (h2 : containsSub end_marker restA = false)
    (h3 : containsSub end_marker content = true) :
    main none repo_name cs content = MainResult.unexpectedError := by
  have hs : containsSub start_marker content = true := containsSub_of_splitFirst h1
  rw [main_none]
  simp only [mergeStep, hs, h3, Bool.and_self, if_true]
  split
  · rfl
  · rename_i before withMarkers hq
    rw [h1] at hq
    obtain ⟨hb, hw⟩ := Option.some.inj hq |> Prod.mk.inj
    subst hb; subst hw
    rw [splitFirst_eq_none_of_not_contains h2]

end UpdateContributors
namespace UpdateContributors

lemma idem_second_run (repo_name : Option Str) (cs : List Contributor)
    (b after : Str)
    (hem : containsSub end_marker (new_section repo_name cs) = false)
    (hb : splitFirst start_marker
      (b ++ start_marker ++ (('\n' :: new_section repo_name cs ++ ['\n'])
        ++ end_marker ++ after))
      = some (b, ('\n' :: new_section repo_name cs ++ ['\n']) ++ end_marker ++ after)) :
    main none repo_name cs
      (b ++ start_marker ++ (('\n' :: new_section repo_name cs ++ ['\n'])
        ++ end_marker ++ after))
      = MainResult.noChange := by
  have hu : containsSub end_marker ('\n' :: new_section repo_name cs ++ ['\n']) = false :=
    containsSub_wrap_nl end_marker (new_section repo_name cs)
      "!-- CONTRIBUTORS END -->".data "<!-- CONTRIBUTORS END --".data em_lt em_gt hem
  have h2 : splitFirst end_marker
      (('\n' :: new_section repo_name cs ++ ['\n']) ++ end_marker ++ after)
      = some ('\n' :: new_section repo_name cs ++ ['\n'], after) :=
    splitFirst_embed end_marker em_noBorder em_ne_nil _ after hu
  obtain ⟨hstrip1, hstrip2⟩ := pyStrip_new_section repo_name cs
  exact merge_noChange repo_name cs _ b _ _ after hb h2 (by rw [hstrip1, hstrip2])

lemma idem_main (repo_name : Option Str) (cs : List Contributor) (content c2 : Str)
    (hwrote : main none repo_name cs content = MainResult.wrote c2)
    (hem : containsSub end_marker (new_section repo_name cs) = false)
    (hlone : containsSub start_marker content = true →
      containsSub end_marker content = true) :
    main none repo_name cs c2 = MainResult.noChange := by
  by_cases hgc : (containsSub start_marker content
      && containsSub end_marker content) = true
  · rw [Bool.and_eq_true] at hgc
    obtain ⟨hs, he⟩ := hgc
    rw [containsSub] at hs
    obtain ⟨⟨b, restA⟩, h1⟩ := Option.isSome_iff_exists.mp hs
    cases h2c : splitFirst end_marker restA with
    | none =>
      have hx := merge_unexpected repo_name cs content b restA h1
        (by rw [containsSub, h2c]; rfl) he
      rw [hx] at hwrote
      simp at hwrote
    | some pr =>
      obtain ⟨mid, after⟩ := pr
      by_cases hcmp : pyStrip (new_section repo_name cs) = pyStrip mid
      · have hx := merge_noChange repo_name cs content b restA mid after h1 h2c hcmp
        rw [hx] at hwrote
        simp at hwrote
      · have hx := merge_replace repo_name cs content b restA mid after h1 h2c hcmp
        rw [hx] at hwrote
        have hc2 : c2 = b ++ start_marker
            ++ (('\n' :: new_section repo_name cs ++ ['\n']) ++ end_marker ++ after) := by
          have := (MainResult.wrote.inj hwrote).symm
          rw [this]
          simp [List.append_assoc]
        have hcontent : content = b ++ start_marker ++ restA :=
          splitFirst_eq _ _ _ _ h1
        rw [hcontent] at h1
        have hb := splitFirst_stable start_marker b restA
          (('\n' :: new_section repo_name cs ++ ['\n']) ++ end_marker ++ after) h1
        rw [hc2]
        exact idem_second_run repo_name cs b after hem hb
  · have hsm : containsSub start_marker content = false := by
      cases hsm : containsSub start_marker content with
      | false => rfl
      | true =>
        have he := hlone hsm
        rw [hsm, he] at hgc
        simp at hgc
    have hx := merge_append repo_name cs content (by
      cases hgcv : (containsSub start_marker content
          && containsSub end_marker content) with
      | false => rfl
      | true => exact absurd hgcv hgc)
    rw [hx] at hwrote
    have hc2 : c2 = (pyRStrip content ++ ['\n', '\n']) ++ start_marker
        ++ (('\n' :: new_section repo_name cs ++ ['\n']) ++ end_marker ++ ['\n']) := by
      have := (MainResult.wrote.inj hwrote).symm
      rw [this]
      simp [List.append_assoc]
    have hu1 : containsSub start_marker (pyRStrip content ++ ['\n', '\n']) = false :=
      containsSub_rstrip_nn start_marker content "<!-- CONTRIBUTORS START --".data
        sm_gt hsm
    have hb := splitFirst_embed start_marker sm_noBorder sm_ne_nil
      (pyRStrip content ++ ['\n', '\n'])
      (('\n' :: new_section repo_name cs ++ ['\n']) ++ end_marker ++ ['\n']) hu1
    rw [hc2]
    exact idem_second_run repo_name cs (pyRStrip content ++ ['\n', '\n']) ['\n'] hem hb

end UpdateContributors
namespace UpdateContributors

lemma buildRows_eq_filter_map (repo_name : Option Str) (cs : List Contributor) :
    buildRows repo_name cs
      = (cs.filter (fun c => !(bots_to_exclude.contains c.login))).map (row repo_name) := by
  induction cs with
  | nil => rfl
  | cons c rest ih =>
    cases hb : bots_to_exclude.contains c.login with
    | true =>
      have hmem : c.login ∈ bots_to_exclude := by simpa using hb
      simp [buildRows, hb, List.filter_cons, hmem, ih]
    | false =>
      have hmem : ¬ (c.login ∈ bots_to_exclude) := by simpa using hb
      simp [buildRows, hb, List.filter_cons, hmem, ih]

lemma buildRows_all_bots (repo_name : Option Str) (cs : List Contributor)
    (hall : ∀ c ∈ cs, bots_to_exclude.contains c.login = true) :
    buildRows repo_name cs = [] := by
  induction cs with
  | nil => rfl
  | cons c rest ih =>
    have hc := hall c (by simp)
    simp only [buildRows, hc, if_true]
    exact ih (fun d hd => hall d (by simp [hd]))

/-- C1: on a README containing a marker pair (a first start marker followed
by an end marker), when the freshly rendered fragment differs after
trimming from the current between-marker section, one run (with `PR_AUTHOR`
unset) writes `before ++ start ++ "\n" ++ fragment ++ "\n" ++ end ++ after`:
the text before the first start marker and the text after the matching end
marker are byte-identical to the original, and the text between the markers
strips to exactly the fresh fragment. -/
theorem update_roundTrip (repo_name : Option Str) (cs : List Contributor)
    (content b restA mid after : Str)
    (h1 : splitFirst start_marker content = some (b, restA))
    (h2 : splitFirst end_marker restA = some (mid, after))
    (hne : pyStrip (new_section repo_name cs) ≠ pyStrip mid) :
    main none repo_name cs content = MainResult.wrote
      (b ++ start_marker ++ ['\n'] ++ new_section repo_name cs
        ++ ['\n'] ++ end_marker ++ after)
    ∧ pyStrip ('\n' :: new_section repo_name cs ++ ['\n']) = new_section repo_name cs :=
  ⟨merge_replace repo_name cs content b restA mid after h1 h2 hne,
   (pyStrip_new_section repo_name cs).2⟩

/-- C1 witness: a concrete README `start + "x" + end` and an empty
contributor list. -/
theorem update_roundTrip_w :
    main none none [] (start_marker ++ 'x' :: end_marker) = MainResult.wrote
      ([] ++ start_marker ++ ['\n'] ++ new_section none []
        ++ ['\n'] ++ end_marker ++ [])
    ∧ pyStrip ('\n' :: new_section none [] ++ ['\n']) = new_section none [] :=
  update_roundTrip none [] (start_marker ++ 'x' :: end_marker) [] ('x' :: end_marker)
    ['x'] [] (by decide) (by decide) (by decide)

/-- C2: the rendered rows are exactly one table row per record whose login
is not in the excluded bot set, in input order (the loop with `continue`
equals filter-then-map); a sublist of only excluded records renders no
rows; and the fragment is the header lines, those rows, and the footer
lines joined by newlines. -/
theorem update_renderFilter (repo_name : Option Str) (cs : List Contributor) :
    buildRows repo_name cs
      = (cs.filter (fun c => !(bots_to_exclude.contains c.login))).map (row repo_name)
    ∧ buildRows repo_name (cs.filter (fun c => bots_to_exclude.contains c.login)) = []
    ∧ new_section repo_name cs = joinNL (header_lines
        ++ (cs.filter (fun c => !(bots_to_exclude.contains c.login))).map (row repo_name)
        ++ footer_lines) := by
  refine ⟨buildRows_eq_filter_map repo_name cs, ?_, ?_⟩
  · exact buildRows_all_bots repo_name _
      (fun c hc => (List.mem_filter.mp hc).2)
  · rw [new_section, html_lines, buildRows_eq_filter_map repo_name cs]

set_option maxRecDepth 16384 in
/-- C4 counterexample: on the README `"a "` (no markers, trailing
whitespace) the run writes `"a\n\n" + block`, in which the original content
`"a "` is not preserved verbatim (it is not even a prefix of the output),
and which differs from the output the claim describes (original content,
one blank line, block). -/
theorem update_append_cex :
    main none none [] ['a', ' '] = MainResult.wrote
      ("a\n\n".data ++ start_marker ++ ['\n'] ++ new_section none []
        ++ ['\n'] ++ end_marker ++ ['\n'])
    ∧ List.isPrefixOf ['a', ' ']
        ("a\n\n".data ++ start_marker ++ ['\n'] ++ new_section none []
          ++ ['\n'] ++ end_marker ++ ['\n']) = false
    ∧ ("a\n\n".data ++ start_marker ++ ['\n'] ++ new_section none []
        ++ ['\n'] ++ end_marker ++ ['\n'])
      ≠ (['a', ' '] ++ ['\n', '\n'] ++ start_marker ++ ['\n'] ++ new_section none []
        ++ ['\n'] ++ end_marker ++ ['\n']) := by
  refine ⟨by decide, by decide, by decide⟩

/-- C4 (amended): on a README with no marker pair, one run writes the
original content with its trailing whitespace stripped, then exactly two
newline characters, then one well-formed marker block
(start, newline, fragment, newline, end, newline); the stripped-off
suffix consists only of whitespace characters. -/
theorem update_append (repo_name : Option Str) (cs : List Contributor) (content : Str)
    (hno : (containsSub start_marker content && containsSub end_marker content) = false) :
    main none repo_name cs content = MainResult.wrote
      (pyRStrip content ++ ['\n', '\n'] ++ start_marker ++ ['\n']
        ++ new_section repo_name cs ++ ['\n'] ++ end_marker ++ ['\n'])
    ∧ content = pyRStrip content ++ (content.reverse.takeWhile isPySpace).reverse
    ∧ ∀ c ∈ (content.reverse.takeWhile isPySpace).reverse, isPySpace c = true :=
  ⟨merge_append repo_name cs content hno, (pyRStrip_decomp content).1,
   (pyRStrip_decomp content).2⟩

/-- C4 witness: the marker-free README `"a "`. -/
theorem update_append_w :
    main none none [] ['a', ' '] = MainResult.wrote
      (pyRStrip ['a', ' '] ++ ['\n', '\n'] ++ start_marker ++ ['\n']
        ++ new_section none [] ++ ['\n'] ++ end_marker ++ ['\n'])
    ∧ ['a', ' '] = pyRStrip ['a', ' ']
        ++ (['a', ' '].reverse.takeWhile isPySpace).reverse
    ∧ ∀ c ∈ (['a', ' '].reverse.takeWhile isPySpace).reverse, isPySpace c = true :=
  update_append none [] ['a', ' '] (by decide)

/-- C5: a README containing exactly one of the two marker literals is
treated as having no block: the run takes the append path, and the lone
marker (not being whitespace-trailed away) survives inside the rstripped
original content above the appended block. -/
theorem update_loneMarker (repo_name : Option Str) (cs : List Contributor) (content : Str)
    (hx : containsSub start_marker content ≠ containsSub end_marker content) :
    main none repo_name cs content = MainResult.wrote
      (pyRStrip content ++ ['\n', '\n'] ++ start_marker ++ ['\n']
        ++ new_section repo_name cs ++ ['\n'] ++ end_marker ++ ['\n'])
    ∧ (containsSub start_marker content = true →
        containsSub start_marker (pyRStrip content) = true)
    ∧ (containsSub end_marker content = true →
        containsSub end_marker (pyRStrip content) = true) := by
  have hg : (containsSub start_marker content && containsSub end_marker content)
      = false := by
    cases h1 : containsSub start_marker content <;>
      cases h2 : containsSub end_marker content <;> simp_all
  refine ⟨merge_append repo_name cs content hg, ?_, ?_⟩
  · intro h
    exact containsSub_pyRStrip start_marker content "<!-- CONTRIBUTORS START --".data '>'
      sm_gt (by decide) h
  · intro h
    exact containsSub_pyRStrip end_marker content "<!-- CONTRIBUTORS END --".data '>'
      em_gt (by decide) h

/-- C5 witness: a README that is a lone end marker followed by `z`. -/
theorem update_loneMarker_w :
    main none none [] (end_marker ++ ['z']) = MainResult.wrote
      (pyRStrip (end_marker ++ ['z']) ++ ['\n', '\n'] ++ start_marker ++ ['\n']
        ++ new_section none [] ++ ['\n'] ++ end_marker ++ ['\n'])
    ∧ (containsSub start_marker (end_marker ++ ['z']) = true →
        containsSub start_marker (pyRStrip (end_marker ++ ['z'])) = true)
    ∧ (containsSub end_marker (end_marker ++ ['z']) = true →
        containsSub end_marker (pyRStrip (end_marker ++ ['z'])) = true) :=
  update_loneMarker none [] (end_marker ++ ['z']) (by decide)

end UpdateContributors
namespace UpdateContributors

set_option maxRecDepth 16384 in
/-- C3 counterexample: on the README consisting of a lone start marker, the
first run appends a block (write 1), and the second run on the written file
does not take the no-change path (it finds the marker pair, extracts a
between-marker section containing the duplicated start marker, sees a
difference, and writes again). -/
theorem update_idem_cex :
    main none none [] start_marker = MainResult.wrote
      (start_marker ++ ['\n', '\n'] ++ start_marker ++ ['\n'] ++ new_section none []
        ++ ['\n'] ++ end_marker ++ ['\n'])
    ∧ main none none []
        (start_marker ++ ['\n', '\n'] ++ start_marker ++ ['\n'] ++ new_section none []
          ++ ['\n'] ++ end_marker ++ ['\n'])
        ≠ MainResult.noChange :=
  ⟨by decide, by decide⟩

/-- C3 (amended): running the merge twice with the same contributor data is
idempotent whenever the rendered fragment does not contain the end-marker
literal and the README does not contain the start marker without the end
marker (a lone start marker instead duplicates the block): if the first run
(with `PR_AUTHOR` unset) wrote `c2`, the second run on `c2` takes the
no-change path, exits 0, and performs no write. -/
theorem update_idem (repo_name : Option Str) (cs : List Contributor) (content c2 : Str)
    (hwrote : main none repo_name cs content = MainResult.wrote c2)
    (hem : containsSub end_marker (new_section repo_name cs) = false)
    (hlone : containsSub start_marker content = true →
      containsSub end_marker content = true) :
    main none repo_name cs c2 = MainResult.noChange
    ∧ program (LoadResult.ok cs) none repo_name c2 = ProgOutcome.success none
    ∧ progExit (program (LoadResult.ok cs) none repo_name c2) = 0 := by
  have hm := idem_main repo_name cs content c2 hwrote hem hlone
  refine ⟨hm, ?_, ?_⟩ <;> simp [program, hm, progExit]

set_option maxRecDepth 16384 in
/-- C3 witness: first run on the empty README writes the block; the second
run on that block reports no change. -/
theorem update_idem_w :
    main none none []
        ([] ++ ['\n', '\n'] ++ start_marker ++ ['\n'] ++ new_section none []
          ++ ['\n'] ++ end_marker ++ ['\n'])
        = MainResult.noChange
    ∧ program (LoadResult.ok []) none none
        ([] ++ ['\n', '\n'] ++ start_marker ++ ['\n'] ++ new_section none []
          ++ ['\n'] ++ end_marker ++ ['\n'])
        = ProgOutcome.success none
    ∧ progExit (program (LoadResult.ok []) none none
        ([] ++ ['\n', '\n'] ++ start_marker ++ ['\n'] ++ new_section none []
          ++ ['\n'] ++ end_marker ++ ['\n'])) = 0 :=
  update_idem none [] []
    ([] ++ ['\n', '\n'] ++ start_marker ++ ['\n'] ++ new_section none []
      ++ ['\n'] ++ end_marker ++ ['\n'])
    (by decide) (by decide) (by decide)

/-- C6: with a non-empty `PR_AUTHOR` whose anchor text `">author</a>` is a
substring of the README, the run returns early: no write, exit code 0,
whatever the contributor list and repository variable are. -/
theorem update_earlyExit (repo_name : Option Str) (cs : List Contributor)
    (a content : Str) (ha : a ≠ [])
    (hc : containsSub (authorNeedle a) content = true) :
    main (some a) repo_name cs content = MainResult.skippedAuthor
    ∧ program (LoadResult.ok cs) (some a) repo_name content = ProgOutcome.success none
    ∧ progExit (program (LoadResult.ok cs) (some a) repo_name content) = 0
    ∧ progWrite (program (LoadResult.ok cs) (some a) repo_name content) = none := by
  have hne : a.isEmpty = false := by
    cases a with
    | nil => exact absurd rfl ha
    | cons c t => rfl
  have hm : main (some a) repo_name cs content = MainResult.skippedAuthor := by
    simp [main, pyTruthy, optVal, hne, hc]
  refine ⟨hm, ?_, ?_, ?_⟩ <;> simp [program, hm, progExit, progWrite]

/-- C6 witness: `PR_AUTHOR=alice` with a README containing `">alice</a>`,
an excluded-bot contributor list and no repository variable. -/
theorem update_earlyExit_w :
    main (some "alice".data) none [] "<a href=\"h\">alice</a>".data
      = MainResult.skippedAuthor
    ∧ program (LoadResult.ok []) (some "alice".data) none
        "<a href=\"h\">alice</a>".data = ProgOutcome.success none
    ∧ progExit (program (LoadResult.ok []) (some "alice".data) none
        "<a href=\"h\">alice</a>".data) = 0
    ∧ progWrite (program (LoadResult.ok []) (some "alice".data) none
        "<a href=\"h\">alice</a>".data) = none :=
  update_earlyExit none [] "alice".data "<a href=\"h\">alice</a>".data
    (by decide) (by decide)

/-- C7: a contributor list of only excluded logins renders zero rows — the
fragment is exactly the fixed header and footer lines around an empty tbody
— and on a marker-pair README whose current section differs (after
trimming) from this empty-bodied fragment, a write still occurs. -/
theorem update_onlyBots (repo_name : Option Str) (cs : List Contributor)
    (content b restA mid after : Str)
    (hall : ∀ c ∈ cs, bots_to_exclude.contains c.login = true)
    (h1 : splitFirst start_marker content = some (b, restA))
    (h2 : splitFirst end_marker restA = some (mid, after))
    (hne : pyStrip (new_section repo_name cs) ≠ pyStrip mid) :
    buildRows repo_name cs = []
    ∧ new_section repo_name cs = joinNL (header_lines ++ footer_lines)
    ∧ main none repo_name cs content = MainResult.wrote
        (b ++ start_marker ++ ['\n'] ++ new_section repo_name cs
          ++ ['\n'] ++ end_marker ++ after) := by
  have hrows := buildRows_all_bots repo_name cs hall
  refine ⟨hrows, ?_, merge_replace repo_name cs content b restA mid after h1 h2 hne⟩
  rw [new_section, html_lines, hrows, List.append_nil]

/-- C7 witness: the list containing only `github-actions[bot]` on the
README `start + "q" + end`. -/
theorem update_onlyBots_w :
    buildRows none [⟨"github-actions[bot]".data, "u".data, "h".data⟩] = []
    ∧ new_section none [⟨"github-actions[bot]".data, "u".data, "h".data⟩]
        = joinNL (header_lines ++ footer_lines)
    ∧ main none none [⟨"github-actions[bot]".data, "u".data, "h".data⟩]
        (start_marker ++ 'q' :: end_marker) = MainResult.wrote
        ([] ++ start_marker ++ ['\n']
          ++ new_section none [⟨"github-actions[bot]".data, "u".data, "h".data⟩]
          ++ ['\n'] ++ end_marker ++ []) :=
  update_onlyBots none [⟨"github-actions[bot]".data, "u".data, "h".data⟩]
    (start_marker ++ 'q' :: end_marker) [] ('q' :: end_marker) ['q'] []
    (by decide) (by decide) (by decide) (by decide)

/-- C8: each load failure maps to exit code 1 with its own stderr prefix
and no README write (`jsonError → "Error parsing contributors.json: "`,
`fileNotFound → "File not found: "`, `ioFailure → "I/O error: "`); the
merge's unexpected error lands in the catch-all with its own prefix; the
four prefixes are pairwise distinct. -/
theorem update_errorPaths (pr_author repo_name : Option Str) (content : Str)
    (cs : List Contributor) (k k2 : ErrKind) :
    program LoadResult.jsonError pr_author repo_name content
        = ProgOutcome.failure ErrKind.jsonParse
    ∧ program LoadResult.fileNotFound pr_author repo_name content
        = ProgOutcome.failure ErrKind.fileNotFound
    ∧ program LoadResult.ioFailure pr_author repo_name content
        = ProgOutcome.failure ErrKind.ioFailure
    ∧ (main pr_author repo_name cs content = MainResult.unexpectedError →
        program (LoadResult.ok cs) pr_author repo_name content
          = ProgOutcome.failure ErrKind.unexpected)
    ∧ progExit (ProgOutcome.failure k) = 1
    ∧ progWrite (ProgOutcome.failure k) = none
    ∧ (errMsg k = errMsg k2 → k = k2) := by
  refine ⟨rfl, rfl, rfl, ?_, rfl, rfl, ?_⟩
  · intro h
    simp [program, h]
  · cases k <;> cases k2 <;> decide

/-- C8 witness: the three load failures at concrete inputs, and two
distinct kinds with distinct prefixes. -/
theorem update_errorPaths_w :
    program LoadResult.jsonError none none []
        = ProgOutcome.failure ErrKind.jsonParse
    ∧ program LoadResult.fileNotFound none none []
        = ProgOutcome.failure ErrKind.fileNotFound
    ∧ program LoadResult.ioFailure none none []
        = ProgOutcome.failure ErrKind.ioFailure
    ∧ (main none none [] [] = MainResult.unexpectedError →
        program (LoadResult.ok []) none none []
          = ProgOutcome.failure ErrKind.unexpected)
    ∧ progExit (ProgOutcome.failure ErrKind.jsonParse) = 1
    ∧ progWrite (ProgOutcome.failure ErrKind.jsonParse) = none
    ∧ (errMsg ErrKind.jsonParse = errMsg ErrKind.fileNotFound →
        ErrKind.jsonParse = ErrKind.fileNotFound) :=
  update_errorPaths none none [] [] ErrKind.jsonParse ErrKind.fileNotFound

/-- C9: a README in which the end marker only occurs before the first start
marker passes the marker-pair test, but splitting what follows the first
start marker at the end marker fails to unpack; the merge raises, the
catch-all handler fires, and the process exits 1 without writing. -/
theorem update_reversedMarkers (repo_name : Option Str) (cs : List Contributor)
    (content b restA : Str)
    (h1 : splitFirst start_marker content = some (b, restA))
    (h2 : containsSub end_marker restA = false)
    (h3 : containsSub end_marker content = true) :
    main none repo_name cs content = MainResult.unexpectedError
    ∧ program (LoadResult.ok cs) none repo_name content
        = ProgOutcome.failure ErrKind.unexpected
    ∧ progExit (program (LoadResult.ok cs) none repo_name content) = 1
    ∧ progWrite (program (LoadResult.ok cs) none repo_name content) = none := by
  have hm := merge_unexpected repo_name cs content b restA h1 h2 h3
  refine ⟨hm, ?_, ?_, ?_⟩ <;> simp [program, hm, progExit, progWrite]

/-- C9 witness: the README `end ++ start`, where every occurrence of the
end marker precedes every occurrence of the start marker. -/
theorem update_reversedMarkers_w :
    main none none [] (end_marker ++ start_marker) = MainResult.unexpectedError
    ∧ program (LoadResult.ok []) none none (end_marker ++ start_marker)
        = ProgOutcome.failure ErrKind.unexpected
    ∧ progExit (program (LoadResult.ok []) none none (end_marker ++ start_marker)) = 1
    ∧ progWrite (program (LoadResult.ok []) none none (end_marker ++ start_marker))
        = none :=
  update_reversedMarkers none [] (end_marker ++ start_marker) end_marker []
    (by decide) (by decide) (by decide)

/-- C10: with several marker pairs, only the section between the first
start marker and the first end marker after it is compared and rewritten:
equal-after-trimming means no change, different means a write in which the
entire tail after that first end marker — later marker blocks included — is
carried over unchanged. -/
theorem update_firstPairOnly (repo_name : Option Str) (cs : List Contributor)
    (content b restA mid after : Str)
    (h1 : splitFirst start_marker content = some (b, restA))
    (h2 : splitFirst end_marker restA = some (mid, after))
    (hmulti : containsSub start_marker after = true) :
    (pyStrip (new_section repo_name cs) = pyStrip mid →
      main none repo_name cs content = MainResult.noChange)
    ∧ (pyStrip (new_section repo_name cs) ≠ pyStrip mid →
      main none repo_name cs content = MainResult.wrote
        (b ++ start_marker ++ ['\n'] ++ new_section repo_name cs
          ++ ['\n'] ++ end_marker ++ after)) :=
  ⟨fun he => merge_noChange repo_name cs content b restA mid after h1 h2 he,
   fun hne => merge_replace repo_name cs content b restA mid after h1 h2 hne⟩

set_option maxRecDepth 16384 in
/-- C10 witness: the README `start + "x" + end + start + "y" + end`. -/
theorem update_firstPairOnly_w :
    (pyStrip (new_section none []) = pyStrip ['x'] →
      main none none []
        (start_marker ++ 'x' :: end_marker ++ start_marker ++ 'y' :: end_marker)
        = MainResult.noChange)
    ∧ (pyStrip (new_section none []) ≠ pyStrip ['x'] →
      main none none []
        (start_marker ++ 'x' :: end_marker ++ start_marker ++ 'y' :: end_marker)
        = MainResult.wrote
        ([] ++ start_marker ++ ['\n'] ++ new_section none [] ++ ['\n'] ++ end_marker
          ++ (start_marker ++ 'y' :: end_marker))) :=
  update_firstPairOnly none []
    (start_marker ++ 'x' :: end_marker ++ start_marker ++ 'y' :: end_marker)
    [] ('x' :: end_marker ++ start_marker ++ 'y' :: end_marker) ['x']
    (start_marker ++ 'y' :: end_marker)
    (by decide) (by decide) (by decide)

end UpdateContributors
